import Mathlib

/-!
Shallow embedding of the connection lifecycle engine of src/main.js
(multipleWindow3dScene).

Modelling conventions, chosen once and used throughout:

* JS numbers are modelled by exact rationals.  The balancer constants
  0.3, 0.05, 0.2 and 0.6 are multiplied with small integers (at most a
  few hundred), where IEEE double rounding agrees with the exact
  rational value, so Math.ceil and Math.floor of those products are
  modelled by exact integer ceiling and floor division.
* Math.sin has no closed rational form; it is kept abstract as a
  function parameter of the tick, so every theorem below holds for the
  real sine in particular.
* Euclidean distances are carried as squared distances: square root is
  strictly monotone on nonnegative reals, so the threshold test
  dist < CONNECTION_THRESHOLD and the ascending sort by dist of the
  source are equivalent to the same tests on squared distances, which
  stay inside the rationals.
* The randomized probe draws of the neighbour search and the randomly
  built batch of a spawn cycle are passed in as explicit inputs
  (the list of drawn indices, respectively an optional new batch), so
  the functions below are the deterministic rest of the source code.
-/

/-- Constant FADE_IN_DURATION from src/main.js line 11 (0.75 seconds). -/
def FADE_IN_DURATION : ℚ := 3/4

/-- Constant FADE_OUT_DURATION from src/main.js line 12 (1.5 seconds). -/
def FADE_OUT_DURATION : ℚ := 3/2

/-- Constant MAX_TOTAL_CONNECTIONS from src/main.js line 9. -/
def MAX_TOTAL_CONNECTIONS : Nat := 600

/-- Constant TARGET_CONNECTIONS from src/main.js line 10. -/
def TARGET_CONNECTIONS : Nat := 400

/-- Constant CONNECTION_THRESHOLD from src/main.js line 25 (maximum
distance for connections). -/
def CONNECTION_THRESHOLD : ℚ := 2

/-- Points and hub centres are 3D vectors with rational coordinates. -/
abbrev Vec3 : Type := ℚ × ℚ × ℚ

/-- Squared Euclidean distance between two points.  The source
(src/main.js lines 213-217) computes Math.sqrt of this value; we keep
the square because every use of the distance (the threshold test and
the ascending sort) is invariant under the strictly monotone square
root. -/
def distSq (a b : Vec3) : ℚ :=
  (a.1 - b.1) ^ 2 + (a.2.1 - b.2.1) ^ 2 + (a.2.2 - b.2.2) ^ 2

/-- One entry of the potentialNeighbors array of createConnections
(src/main.js lines 220-224): the index of the sampled point, its
(squared) distance to the anchor point, and its position. -/
structure Candidate where
  index : Nat
  dSq : ℚ
  position : Vec3
deriving DecidableEq

/-- Insert a candidate into a list that is already sorted by ascending
(squared) distance, before the first strictly larger element. -/
def insertSorted (c : Candidate) : List Candidate → List Candidate
  | [] => [c]
  | d :: ds => if c.dSq ≤ d.dSq then c :: d :: ds else d :: insertSorted c ds

/-- Stable ascending sort by distance, modelling
potentialNeighbors.sort((a, b) => a.dist - b.dist) of src/main.js
line 229 (Array.prototype.sort is stable and this comparator orders by
ascending distance). -/
def sortByDist : List Candidate → List Candidate
  | [] => []
  | c :: cs => insertSorted c (sortByDist cs)

/-- The neighbour probing loop of createConnections (src/main.js lines
205-226): for each of the drawn random indices, a draw equal to the
anchor index is skipped (continue), otherwise the distance to the
anchor is computed and the point is kept when it is under the
threshold.  The 50 random draws are the draws argument. -/
def sampleNeighbors (positions : Nat → Vec3) (hubIndex : Nat) : List Nat → List Candidate
  | [] => []
  | j :: rest =>
    if j = hubIndex then sampleNeighbors positions hubIndex rest
    else
      let d := distSq (positions j) (positions hubIndex)
      if d < CONNECTION_THRESHOLD ^ 2 then
        ⟨j, d, positions j⟩ :: sampleNeighbors positions hubIndex rest
      else sampleNeighbors positions hubIndex rest

/-- Number of distance computations the probing loop performs: one per
draw that is not the anchor index (a draw equal to the anchor is
skipped before its distance is computed, src/main.js line 207). -/
def probesChecked (hubIndex : Nat) (draws : List Nat) : Nat :=
  (draws.filter (fun j => j != hubIndex)).length

/-- A hub as built by createConnections: the virtual (jittered) hub
position together with its spokes (the chosen neighbour candidates;
each spoke is the line segment from the centre to the candidate's
position, src/main.js lines 251-262). -/
structure Hub where
  center : Vec3
  spokes : List Candidate
deriving DecidableEq

/-- Hub construction for one anchor (src/main.js lines 228-262): sort
the gathered candidates by ascending distance; if at least 3 qualify,
emit the hub whose spokes are the closest three, otherwise emit
nothing (the anchor is silently skipped). -/
def buildHub (positions : Nat → Vec3) (hubIndex : Nat) (center : Vec3)
    (draws : List Nat) : Option Hub :=
  let sorted := sortByDist (sampleNeighbors positions hubIndex draws)
  if 3 ≤ sorted.length then some ⟨center, sorted.take 3⟩ else none

/-- A connection batch object as created at src/main.js lines 309-315:
identity of its LineSegments object (id), creation time, hub count,
the flattened color buffer (6 components per spoke: 2 vertices times
3 components), the per-spoke opacity array, the state string and the
visibility flag of the lines object. -/
structure Conn where
  id : Nat
  startTime : ℚ
  hubsCount : Nat
  colors : List ℚ
  opacities : List ℚ
  state : String
  visible : Bool
deriving DecidableEq

/-- The four lifecycle buckets (connectionStates, src/main.js lines
29-34). -/
structure ConnectionStates where
  active : List Conn
  fadingIn : List Conn
  fadingOut : List Conn
  pendingRemoval : List Conn
deriving DecidableEq

/-- The connectionStats counters (src/main.js lines 14-20, recomputed
at lines 451-457): per-bucket hub counts. -/
structure Stats where
  active : Nat
  fadingIn : Nat
  fadingOut : Nat
deriving DecidableEq

/-- Total hub count, connectionStats.total of src/main.js line 457. -/
def Stats.total (s : Stats) : Nat := s.active + s.fadingIn + s.fadingOut

/-- Sum of the hubsCount fields of a bucket (the reduce calls of
src/main.js lines 452-454). -/
def hubTotal (l : List Conn) : Nat := (l.map Conn.hubsCount).sum

/-- Recompute the per-bucket hub counters from the buckets
(src/main.js lines 451-457). -/
def statsOf (cs : ConnectionStates) : Stats :=
  ⟨hubTotal cs.active, hubTotal cs.fadingIn, hubTotal cs.fadingOut⟩

/-- Ids of the batches of one bucket. -/
def idsOf (l : List Conn) : List Nat := l.map Conn.id

/-- Ids of all batches present in any bucket. -/
def allIds (cs : ConnectionStates) : List Nat :=
  idsOf cs.fadingIn ++ idsOf cs.active ++ idsOf cs.fadingOut ++ idsOf cs.pendingRemoval

/-- Position of a batch id along the lifecycle, in the order
fadingIn (0), active (1), fadingOut (2), pendingRemoval (3); 4 means
the batch is in no bucket (deleted or never created). -/
def bucketRank (cs : ConnectionStates) (i : Nat) : Nat :=
  if i ∈ idsOf cs.fadingIn then 0
  else if i ∈ idsOf cs.active then 1
  else if i ∈ idsOf cs.fadingOut then 2
  else if i ∈ idsOf cs.pendingRemoval then 3
  else 4

/-- Map a function of (buffer index, value) over a color buffer,
starting at index i: the explicit form of the indexed writes of the
color-update loops. -/
def mapIdxQ (f : Nat → ℚ → ℚ) : Nat → List ℚ → List ℚ
  | _, [] => []
  | i, v :: vs => f i v :: mapIdxQ f (i + 1) vs

/-- Color update of one fading-in batch (src/main.js lines 368-385):
with progress = elapsed / FADE_IN_DURATION and target opacity
0.6 * progress, every color component of every spoke is decayed by
0.9 and pulled by 0.1 toward the target.  The loop writes the 6
components of each of the opacities.length spokes, i.e. exactly the
buffer indices below 6 * opacities.length. -/
def fadeInUpdate (tNow : ℚ) (c : Conn) : Conn :=
  let elapsed := tNow - c.startTime
  let progress := elapsed / FADE_IN_DURATION
  let opacity := (6/10) * progress
  { c with colors := mapIdxQ (fun idx v =>
      if idx < 6 * c.opacities.length then v * (9/10) + (1/10) * opacity else v) 0 c.colors }

/-- Color update of one fading-out batch (src/main.js lines 400-425):
with progress = elapsed / FADE_OUT_DURATION, easedProgress the cubic
ease-out 1 - (1-progress)^3 and fadeOutFactor = 1 - easedProgress,
every color component is multiplied by 0.95 * fadeOutFactor; when the
factor drops under 0.1 the lines object is made invisible. -/
def fadeOutUpdate (tNow : ℚ) (c : Conn) : Conn :=
  let elapsed := tNow - c.startTime
  let progress := elapsed / FADE_OUT_DURATION
  let easedProgress := 1 - (1 - progress) ^ 3
  let fadeOutFactor := 1 - easedProgress
  { c with
    colors := mapIdxQ (fun idx v =>
      if idx < 6 * c.opacities.length then v * (19/20) * fadeOutFactor else v) 0 c.colors,
    visible := if fadeOutFactor < 1/10 then false else c.visible }

/-- Color update of one active batch (src/main.js lines 430-448): a
batch with an empty opacities array is skipped; otherwise for spoke i
the pulse target is 0.5 + 0.2 * sin(tNow * 2 + i * 0.1) and each of
its 6 color components (buffer indices idx with idx / 6 = i) is
blended 0.95 toward itself and 0.05 toward the pulse target. -/
def activeUpdate (sin : ℚ → ℚ) (tNow : ℚ) (c : Conn) : Conn :=
  if c.opacities.length = 0 then c
  else
    let pulse : Nat → ℚ → ℚ := fun idx v =>
      if idx / 6 < c.opacities.length then
        v * (19/20) + (1/20) * (1/2 + (1/5) * sin (tNow * 2 + (idx / 6 : Nat) * (1/10)))
      else v
    { c with colors := mapIdxQ pulse 0 c.colors }

/-- One evaluation of updateConnections (src/main.js lines 347-458):
batches pending removal are detached from the scene and dropped;
fading-in batches whose elapsed time exceeds FADE_IN_DURATION move to
the end of the active bucket (in order) and the others get the fade-in
color update; fading-out batches whose elapsed time exceeds
FADE_OUT_DURATION move to pendingRemoval and the others get the
fade-out color update; finally every batch now in the active bucket
(including the ones just moved) gets the pulse update.  The scene is
the list of ids of attached line objects. -/
def updateConnections (sin : ℚ → ℚ) (tNow : ℚ) (scene : List Nat)
    (cs : ConnectionStates) : List Nat × ConnectionStates :=
  let scene1 := scene.filter (fun i => cs.pendingRemoval.all (fun c => c.id != i))
  let movedToActive := cs.fadingIn.filter (fun c => decide (FADE_IN_DURATION < tNow - c.startTime))
  let stillFadingIn :=
    (cs.fadingIn.filter (fun c => !decide (FADE_IN_DURATION < tNow - c.startTime))).map
      (fadeInUpdate tNow)
  let movedToPending := cs.fadingOut.filter (fun c => decide (FADE_OUT_DURATION < tNow - c.startTime))
  let stillFadingOut :=
    (cs.fadingOut.filter (fun c => !decide (FADE_OUT_DURATION < tNow - c.startTime))).map
      (fadeOutUpdate tNow)
  let newActive := (cs.active ++ movedToActive).map (activeUpdate sin tNow)
  (scene1, ⟨newActive, stillFadingIn, stillFadingOut, movedToPending⟩)

/-- Demotion of one active batch (src/main.js lines 519-521 and
540-542): its state string becomes fadingOut and its startTime is
reset to the current time. -/
def demoteConn (tNow : ℚ) (c : Conn) : Conn :=
  { c with state := "fadingOut", startTime := tNow }

/-- Demote the n oldest active batches: the active bucket is a FIFO
(new batches are pushed at the end, demotion shifts from the front),
so the n demoted batches are the first n, appended to fadingOut in
order. -/
def demote (tNow : ℚ) (n : Nat) (cs : ConnectionStates) : ConnectionStates :=
  { cs with
    active := cs.active.drop n,
    fadingOut := cs.fadingOut ++ (cs.active.take n).map (demoteConn tNow) }

/-- The demotion half of the population balancer (src/main.js lines
510-546), evaluated once per balancing cycle with the hub counters of
the previous tick.  Above MAX_TOTAL_CONNECTIONS it demotes
min(active batch count, ceil((total - TARGET_CONNECTIONS) * 0.3))
batches; otherwise it demotes ceil(active * 0.05) batches (at least
one), truncated so that at least floor(TARGET_CONNECTIONS * 0.6)
active batches remain, and does nothing when that truncation is not
positive. -/
def balance (tNow : ℚ) (stats : Stats) (cs : ConnectionStates) : ConnectionStates :=
  if MAX_TOTAL_CONNECTIONS < stats.total then
    let excessConnections := stats.total - TARGET_CONNECTIONS
    let numToRemove := min cs.active.length ((excessConnections * 3 + 9) / 10)
    demote tNow numToRemove cs
  else if 0 < cs.active.length then
    let numToFadeOut := max 1 ((cs.active.length + 19) / 20)
    let minActiveToKeep := TARGET_CONNECTIONS * 6 / 10
    let actualFadeOut : Int :=
      if (cs.active.length : Int) - numToFadeOut < minActiveToKeep then
        (cs.active.length : Int) - minActiveToKeep
      else numToFadeOut
    if 0 < actualFadeOut then demote tNow actualFadeOut.toNat cs else cs
  else cs

/-- The spawn half of the population balancer (src/main.js lines
548-564): the number of hubs requested from createConnections, or 0
when no build is triggered.  Nat subtraction agrees with the source
because total counts every fading-out hub. -/
def spawnCount (stats : Stats) : Nat :=
  if stats.total < MAX_TOTAL_CONNECTIONS ∧
      stats.total - stats.fadingOut + 20 < TARGET_CONNECTIONS then
    let deficit := TARGET_CONNECTIONS - (stats.total - stats.fadingOut)
    min 20 ((deficit + 4) / 5)
  else 0

/-- A batch as assembled by an incremental (replacementPercentage < 1)
createConnections call (src/main.js lines 288-315): state fadingIn,
one 0.01 opacity entry per spoke (3 per hub), hub count derived from
the opacity array.  The color buffer contents are passed through. -/
def mkPartialBatch (id : Nat) (now : ℚ) (hubs : List Hub) (colors : List ℚ) : Conn :=
  { id := id
    startTime := now
    hubsCount := (List.replicate (3 * hubs.length) ((1 : ℚ)/100)).length / 3
    colors := colors
    opacities := List.replicate (3 * hubs.length) ((1 : ℚ)/100)
    state := "fadingIn"
    visible := true }

/-- Bucket insertion of a non-empty incremental batch (src/main.js
lines 328-338): when the global connections reference is null the new
batch becomes that reference and is pushed into the active bucket,
otherwise it is pushed into the fadingIn bucket; either way its lines
object is added to the scene. -/
def insertPartialBatch (connections : Option Conn) (cs : ConnectionStates)
    (scene : List Nat) (nb : Conn) : Option Conn × ConnectionStates × List Nat :=
  match connections with
  | none => (some nb, { cs with active := cs.active ++ [nb] }, scene ++ [nb.id])
  | some c => (some c, { cs with fadingIn := cs.fadingIn ++ [nb] }, scene ++ [nb.id])

/-- One frame of the connection logic of render (src/main.js lines
503-569): when a balancing cycle is due, first the demotion half of
the balancer runs (with the counters of the previous tick), then a
new batch built by createConnections is inserted when the spawn half
triggered and the random build produced hubs (the built batch is the
newBatch input), and finally updateConnections runs at the current
time. -/
def renderConnectionStep (sin : ℚ → ℚ) (tNow : ℚ) (due : Bool) (stats : Stats)
    (connections : Option Conn) (newBatch : Option Conn)
    (scene : List Nat) (cs : ConnectionStates) :
    Option Conn × List Nat × ConnectionStates :=
  let cs1 := if due then balance tNow stats cs else cs
  let inserted :=
    match due, newBatch with
    | true, some nb => insertPartialBatch connections cs1 scene nb
    | _, _ => (connections, cs1, scene)
  let updated := updateConnections sin tNow inserted.2.2 inserted.2.1
  (inserted.1, updated.1, updated.2)

/-- Camera model for the resize handler: the aspect field and the
aspect baked into the projection matrix by updateProjectionMatrix. -/
structure Camera where
  aspect : Option ℚ
  projectionAspect : Option ℚ
deriving DecidableEq

/-- JS division as used for the aspect ratio: dividing by zero yields
a non-finite number (Infinity or NaN), modelled as none. -/
def aspectOf (width height : ℚ) : Option ℚ :=
  if height = 0 then none else some (width / height)

/-- The resize handler (src/main.js lines 584-590): it unconditionally
sets camera.aspect = width / height and calls
camera.updateProjectionMatrix(), which bakes the current aspect into
the projection matrix.  There is no guard on height. -/
def resizeCamera (width height : ℚ) (_cam : Camera) : Camera :=
  let a := aspectOf width height
  { aspect := a, projectionAspect := a }

/-- Concrete fading-in batch used to evaluate the tick at elapsed = 0:
one hub, three spokes, 18 color components all equal to 1. -/
def connC1 : Conn :=
  { id := 0, startTime := 0, hubsCount := 1,
    colors := List.replicate 18 1, opacities := List.replicate 3 (1/100),
    state := "fadingIn", visible := true }

/-- Bucket state holding only the batch connC1, in fadingIn. -/
def csC1 : ConnectionStates := ⟨[], [connC1], [], []⟩

/-- Concrete active batch carrying 601 hubs in a single batch. -/
def connC3 : Conn :=
  { id := 0, startTime := 0, hubsCount := 601, colors := [], opacities := [],
    state := "active", visible := true }

/-- Bucket state whose whole population is the single batch connC3. -/
def csC3 : ConnectionStates := ⟨[connC3], [], [], []⟩

/-- Generic single-hub active batch for population examples. -/
def connA : Conn :=
  { id := 1, startTime := 0, hubsCount := 1, colors := [], opacities := [],
    state := "active", visible := true }

/-- Bucket state with 240 single-hub active batches. -/
def csC4 : ConnectionStates := ⟨List.replicate 240 connA, [], [], []⟩

/-- Concrete fading-out batch that entered fadingOut at time 0. -/
def connC8 : Conn :=
  { id := 5, startTime := 0, hubsCount := 1, colors := List.replicate 18 1,
    opacities := List.replicate 3 (1/2), state := "fadingOut", visible := true }

/-- Bucket state holding only the batch connC8, in fadingOut. -/
def csC8 : ConnectionStates := ⟨[], [], [connC8], []⟩

/-- Concrete point field for the hub-builder example: the anchor 0 at
the origin and three distinct close neighbours. -/
def positions6 : Nat → Vec3 := fun i =>
  if i = 1 then (1, 0, 0)
  else if i = 2 then (0, 1, 0)
  else if i = 3 then (0, 0, 1)
  else (0, 0, 0)

/-- The hub the builder produces from positions6 with draws 1, 2, 3. -/
def hub6 : Hub :=
  ⟨(0, 0, 0), [⟨1, 1, (1, 0, 0)⟩, ⟨2, 1, (0, 1, 0)⟩, ⟨3, 1, (0, 0, 1)⟩]⟩

/-- Concrete point field for the with-replacement example: anchor 0 at
the origin, point 1 close to it, every other point far away. -/
def positions9 : Nat → Vec3 := fun i =>
  if i = 0 then (0, 0, 0) else if i = 1 then (1, 0, 0) else (50, 50, 50)

/-- Fifty probe draws that hit point 1 three times and the anchor 0
once; the remaining draws hit the far point 2. -/
def draws9 : List Nat := [1, 1, 1, 0] ++ List.replicate 46 2

/-- Distinct-id batches for a concrete lifecycle step: one per bucket. -/
def csC5 : ConnectionStates :=
  ⟨[{ connA with id := 2 }], [{ connA with id := 1, state := "fadingIn" }],
   [{ connA with id := 3, state := "fadingOut" }], [{ connA with id := 4 }]⟩

/-- Concrete stats snapshot used with csC5. -/
def statsC5 : Stats := ⟨1, 1, 1⟩

/-! Helper lemmas about the field-preserving color updates. -/

@[simp] theorem fadeInUpdate_id (t : ℚ) (c : Conn) : (fadeInUpdate t c).id = c.id := rfl

@[simp] theorem fadeInUpdate_opacities (t : ℚ) (c : Conn) :
    (fadeInUpdate t c).opacities = c.opacities := rfl

@[simp] theorem fadeInUpdate_startTime (t : ℚ) (c : Conn) :
    (fadeInUpdate t c).startTime = c.startTime := rfl

@[simp] theorem fadeOutUpdate_id (t : ℚ) (c : Conn) : (fadeOutUpdate t c).id = c.id := rfl

@[simp] theorem fadeOutUpdate_opacities (t : ℚ) (c : Conn) :
    (fadeOutUpdate t c).opacities = c.opacities := rfl

@[simp] theorem fadeOutUpdate_startTime (t : ℚ) (c : Conn) :
    (fadeOutUpdate t c).startTime = c.startTime := rfl

@[simp] theorem activeUpdate_id (s : ℚ → ℚ) (t : ℚ) (c : Conn) :
    (activeUpdate s t c).id = c.id := by
  unfold activeUpdate; split <;> rfl

@[simp] theorem activeUpdate_opacities (s : ℚ → ℚ) (t : ℚ) (c : Conn) :
    (activeUpdate s t c).opacities = c.opacities := by
  unfold activeUpdate; split <;> rfl

@[simp] theorem demoteConn_id (t : ℚ) (c : Conn) : (demoteConn t c).id = c.id := rfl

@[simp] theorem demoteConn_startTime (t : ℚ) (c : Conn) : (demoteConn t c).startTime = t := rfl

@[simp] theorem idsOf_append (l1 l2 : List Conn) :
    idsOf (l1 ++ l2) = idsOf l1 ++ idsOf l2 := by
  simp [idsOf]

theorem idsOf_map_eq (f : Conn → Conn) (hf : ∀ c, (f c).id = c.id) (l : List Conn) :
    idsOf (l.map f) = idsOf l := by
  simp only [idsOf, List.map_map]
  exact List.map_congr_left (fun a _ => hf a)

theorem mem_idsOf (a : Nat) (l : List Conn) : a ∈ idsOf l ↔ ∃ c ∈ l, c.id = a := by
  simp [idsOf]

/-- C2. The resize handler of src/main.js lines 584-590 has no guard
on a zero height: it sets camera.aspect to width / height, a
non-finite value, and still calls updateProjectionMatrix, so the
non-finite aspect is propagated into the projection matrix.  This
refutes the claim that the computation is guarded. -/
theorem resize_zero_height_propagates_nonfinite_aspect :
    (resizeCamera 800 0 ⟨some 1, some 1⟩).projectionAspect = none ∧
    (resizeCamera 800 0 ⟨some 1, some 1⟩).aspect = none := by
  constructor <;> simp [resizeCamera, aspectOf]

/-- C7. New hubs are requested only when the previous tick's total is
under MAX_TOTAL_CONNECTIONS and the projected total (total minus
fading-out hubs, plus the 20 buffer) is strictly below
TARGET_CONNECTIONS, and the requested count is
min(20, ceil(0.2 * (TARGET_CONNECTIONS - (total - fadingOut)))), so
never more than 20 hubs are requested per balancing cycle. -/
theorem spawn_conditions_and_cap (s : Stats) :
    spawnCount s ≤ 20 ∧
    (spawnCount s ≠ 0 →
      s.total < MAX_TOTAL_CONNECTIONS ∧
      s.total - s.fadingOut + 20 < TARGET_CONNECTIONS ∧
      (spawnCount s : ℤ) =
        min 20 ⌈((TARGET_CONNECTIONS : ℚ) - ((s.total - s.fadingOut : Nat) : ℚ)) * (2/10)⌉) := by
  have key : ∀ n : Nat, n + 20 < 400 →
      ((min 20 ((400 - n + 4) / 5) : Nat) : ℤ) = min 20 ⌈((400 : ℚ) - (n : ℚ)) * (2/10)⌉ := by
    intro n hn
    have hn400 : n ≤ 400 := by omega
    set d : Nat := 400 - n with hd
    set q : Nat := (d + 4) / 5 with hq
    have hq1 : 5 * q ≤ d + 4 := by omega
    have hq2 : d ≤ 5 * q := by omega
    have hdq : ((400 : ℚ) - (n : ℚ)) * (2/10) = (d : ℚ) / 5 := by
      have hcast : (d : ℚ) = 400 - (n : ℚ) := by
        rw [hd, Nat.cast_sub hn400]
        norm_num
      rw [hcast]
      ring
    have hceil : ⌈((400 : ℚ) - (n : ℚ)) * (2/10)⌉ = (q : ℤ) := by
      rw [hdq, Int.ceil_eq_iff]
      constructor
      · have h1 : (5 : ℚ) * (q : ℚ) ≤ (d : ℚ) + 4 := by exact_mod_cast hq1
        push_cast
        linarith
      · have h2 : (d : ℚ) ≤ 5 * (q : ℚ) := by exact_mod_cast hq2
        push_cast
        linarith
    rw [hceil]
    push_cast [Nat.cast_min]
    rfl
  constructor
  · show spawnCount s ≤ 20
    unfold spawnCount
    split
    · show 20 ⊓ ((TARGET_CONNECTIONS - (s.total - s.fadingOut)) + 4) / 5 ≤ 20
      omega
    · omega
  · intro hne
    have hcond : s.total < MAX_TOTAL_CONNECTIONS ∧
        s.total - s.fadingOut + 20 < TARGET_CONNECTIONS := by
      by_contra hc
      apply hne
      unfold spawnCount
      rw [if_neg hc]
    obtain ⟨h1, h2⟩ := hcond
    refine ⟨h1, h2, ?_⟩
    have hs : spawnCount s =
        min 20 ((TARGET_CONNECTIONS - (s.total - s.fadingOut) + 4) / 5) := by
      unfold spawnCount
      rw [if_pos ⟨h1, h2⟩]
    rw [hs]
    have h2n : s.total - s.fadingOut + 20 < 400 := by
      simpa [TARGET_CONNECTIONS] using h2
    simpa [TARGET_CONNECTIONS] using key (s.total - s.fadingOut) h2n

/-- C7 witness: a concrete stats snapshot under the target triggers a
spawn and the theorem's characterisation holds there. -/
theorem spawn_conditions_and_cap_witness :
    (⟨100, 50, 30⟩ : Stats).total < MAX_TOTAL_CONNECTIONS ∧
    (⟨100, 50, 30⟩ : Stats).total - (⟨100, 50, 30⟩ : Stats).fadingOut + 20 < TARGET_CONNECTIONS ∧
    (spawnCount ⟨100, 50, 30⟩ : ℤ) =
      min 20 ⌈((TARGET_CONNECTIONS : ℚ) -
        (((⟨100, 50, 30⟩ : Stats).total - (⟨100, 50, 30⟩ : Stats).fadingOut : Nat) : ℚ)) * (2/10)⌉ :=
  (spawn_conditions_and_cap ⟨100, 50, 30⟩).2 (by decide)

@[simp] theorem demoteConn_hubsCount (t : ℚ) (c : Conn) :
    (demoteConn t c).hubsCount = c.hubsCount := rfl

@[simp] theorem demoteConn_state (t : ℚ) (c : Conn) :
    (demoteConn t c).state = "fadingOut" := rfl

@[simp] theorem hubTotal_append (l1 l2 : List Conn) :
    hubTotal (l1 ++ l2) = hubTotal l1 + hubTotal l2 := by
  simp [hubTotal]

theorem hubTotal_map_demoteConn (t : ℚ) (l : List Conn) :
    hubTotal (l.map (demoteConn t)) = hubTotal l := by
  simp only [hubTotal, List.map_map]
  exact congrArg _ (List.map_congr_left fun a _ => rfl)

/-- C10. When an incremental (partial) build completes while the
global connections reference is null, the new batch is pushed
directly into the active bucket, bypassing fadingIn, even though its
state field is the string fadingIn and all its per-spoke opacities
start at 0.01. -/
theorem partial_build_with_null_connections_goes_active (idn : Nat) (now : ℚ)
    (hubs : List Hub) (colors : List ℚ) (cs : ConnectionStates) (scene : List Nat)
    (hne : hubs ≠ []) :
    (insertPartialBatch none cs scene (mkPartialBatch idn now hubs colors)).1 =
      some (mkPartialBatch idn now hubs colors) ∧
    (insertPartialBatch none cs scene (mkPartialBatch idn now hubs colors)).2.1.active =
      cs.active ++ [mkPartialBatch idn now hubs colors] ∧
    (insertPartialBatch none cs scene (mkPartialBatch idn now hubs colors)).2.1.fadingIn =
      cs.fadingIn ∧
    (mkPartialBatch idn now hubs colors).state = "fadingIn" ∧
    (mkPartialBatch idn now hubs colors).opacities ≠ [] ∧
    ∀ o ∈ (mkPartialBatch idn now hubs colors).opacities, o = 1/100 := by
  refine ⟨rfl, rfl, rfl, rfl, ?_, ?_⟩
  · cases hubs with
    | nil => exact absurd rfl hne
    | cons a l =>
        intro hcontra
        have hlen := congrArg List.length hcontra
        simp [mkPartialBatch] at hlen
  · intro o ho
    exact List.eq_of_mem_replicate ho

/-- C10 witness: a one-hub batch inserted while connections is null
lands in the active bucket of the empty state. -/
theorem partial_build_with_null_connections_goes_active_witness :
    (insertPartialBatch none ⟨[], [], [], []⟩ [] (mkPartialBatch 7 0 [hub6] [])).1 =
      some (mkPartialBatch 7 0 [hub6] []) ∧
    (insertPartialBatch none ⟨[], [], [], []⟩ [] (mkPartialBatch 7 0 [hub6] [])).2.1.active =
      (⟨[], [], [], []⟩ : ConnectionStates).active ++ [mkPartialBatch 7 0 [hub6] []] ∧
    (insertPartialBatch none ⟨[], [], [], []⟩ [] (mkPartialBatch 7 0 [hub6] [])).2.1.fadingIn =
      (⟨[], [], [], []⟩ : ConnectionStates).fadingIn ∧
    (mkPartialBatch 7 0 [hub6] []).state = "fadingIn" ∧
    (mkPartialBatch 7 0 [hub6] []).opacities ≠ [] ∧
    ∀ o ∈ (mkPartialBatch 7 0 [hub6] []).opacities, o = 1/100 :=
  partial_build_with_null_connections_goes_active 7 0 [hub6] [] ⟨[], [], [], []⟩ []
    (by simp)

theorem demote_zero (tNow : ℚ) (cs : ConnectionStates) : demote tNow 0 cs = cs := by
  cases cs
  simp [demote]

/-- Every run of the balancer is a demotion of some prefix of the
active bucket; in the normal (non-overflow) branch the demoted prefix
never reaches below the floor of TARGET_CONNECTIONS * 0.6 active
batches when the bucket started at or above it. -/
theorem balance_eq_demote (tNow : ℚ) (stats : Stats) (cs : ConnectionStates) :
    ∃ k : Nat, balance tNow stats cs = demote tNow k cs ∧ k ≤ cs.active.length ∧
      (¬ MAX_TOTAL_CONNECTIONS < stats.total →
        TARGET_CONNECTIONS * 6 / 10 ≤ cs.active.length →
        k ≤ cs.active.length - TARGET_CONNECTIONS * 6 / 10) := by
  unfold balance
  split
  case isTrue hov =>
    exact ⟨_, rfl, min_le_left _ _, fun hc _ => absurd hov hc⟩
  case isFalse hov =>
    split
    case isFalse hlen => exact ⟨0, (demote_zero tNow cs).symm, by omega, by omega⟩
    case isTrue hlen =>
      dsimp only
      split <;> rename_i hsel <;> split <;> rename_i hact
      · exact ⟨_, rfl, by omega, fun _ _ => by omega⟩
      · exact ⟨0, (demote_zero tNow cs).symm, by omega, by omega⟩
      · exact ⟨_, rfl, by omega, fun _ _ => by omega⟩
      · exact ⟨0, (demote_zero tNow cs).symm, by omega, by omega⟩

/-- C4. In the normal (non-overflow) branch of the balancer, when the
active batch count is at least floor(TARGET_CONNECTIONS * 0.6) = 240,
demotion never brings it below that floor. -/
theorem balance_normal_branch_floor_guard (tNow : ℚ) (stats : Stats)
    (cs : ConnectionStates)
    (hnf : ¬ MAX_TOTAL_CONNECTIONS < stats.total)
    (hfloor : TARGET_CONNECTIONS * 6 / 10 ≤ cs.active.length) :
    TARGET_CONNECTIONS * 6 / 10 ≤ (balance tNow stats cs).active.length := by
  obtain ⟨k, hbal, hkle, hnorm⟩ := balance_eq_demote tNow stats cs
  have hk := hnorm hnf hfloor
  rw [hbal]
  show TARGET_CONNECTIONS * 6 / 10 ≤ (cs.active.drop k).length
  rw [List.length_drop]
  omega

/-- C4 witness: with 240 single-hub active batches and a total under
the ceiling, the floor is preserved. -/
theorem balance_normal_branch_floor_guard_witness :
    TARGET_CONNECTIONS * 6 / 10 ≤ (balance 0 ⟨240, 0, 0⟩ csC4).active.length :=
  balance_normal_branch_floor_guard 0 ⟨240, 0, 0⟩ csC4 (by decide)
    (by rw [show csC4.active = List.replicate 240 connA from rfl, List.length_replicate]
        norm_num [TARGET_CONNECTIONS])

/-- C3 counterexample: a single active batch carrying 601 hubs puts
the total at 601, above MAX_TOTAL_CONNECTIONS; the overflow branch
then demotes that whole batch, moving 601 hubs' worth into fadingOut,
whereas the claim predicts ceil((601 - 400) * 0.3) = 61 hubs' worth
(or 1, reading the active-batch cap in the claim's unit). -/
theorem balance_overflow_counts_batches_not_hubs :
    MAX_TOTAL_CONNECTIONS < (statsOf csC3).total ∧
    (((statsOf csC3).total - TARGET_CONNECTIONS) * 3 + 9) / 10 = 61 ∧
    hubTotal (balance 5 (statsOf csC3) csC3).fadingOut = 601 ∧
    (601 : Nat) ≠ 61 ∧ (601 : Nat) ≠ 1 := by
  refine ⟨by decide, by decide, ?_, by decide, by decide⟩
  decide

/-- C3 (amended). In the overflow branch the balancer demotes
min(active batch count, ceil((total - TARGET_CONNECTIONS) * 0.3))
whole batches -- a batch count, not a hubs' worth -- oldest first
(the first n active batches in stable creation order), marking each
demoted batch fadingOut with its startTime reset; the hubs' worth
actually removed is the hub total of those n batches. -/
theorem balance_overflow_demotes_oldest_batches (tNow : ℚ) (stats : Stats)
    (cs : ConnectionStates) (n : Nat)
    (hover : MAX_TOTAL_CONNECTIONS < stats.total)
    (hn : n = min cs.active.length (((stats.total - TARGET_CONNECTIONS) * 3 + 9) / 10)) :
    (balance tNow stats cs).active = cs.active.drop n ∧
    (balance tNow stats cs).fadingOut =
      cs.fadingOut ++ (cs.active.take n).map (demoteConn tNow) ∧
    (balance tNow stats cs).fadingIn = cs.fadingIn ∧
    (balance tNow stats cs).pendingRemoval = cs.pendingRemoval ∧
    (balance tNow stats cs).fadingOut.length = cs.fadingOut.length + n ∧
    hubTotal (balance tNow stats cs).fadingOut =
      hubTotal cs.fadingOut + hubTotal (cs.active.take n) ∧
    ∀ c ∈ (cs.active.take n).map (demoteConn tNow),
      c.state = "fadingOut" ∧ c.startTime = tNow := by
  have hnle : n ≤ cs.active.length := by
    rw [hn]; exact min_le_left _ _
  have hb : balance tNow stats cs = demote tNow n cs := by
    unfold balance
    rw [if_pos hover]
    show demote tNow
      (min cs.active.length (((stats.total - TARGET_CONNECTIONS) * 3 + 9) / 10)) cs =
      demote tNow n cs
    rw [hn]
  rw [hb]
  refine ⟨rfl, rfl, rfl, rfl, ?_, ?_, ?_⟩
  · simp only [demote, List.length_append, List.length_map, List.length_take]
    omega
  · simp only [demote, hubTotal_append, hubTotal_map_demoteConn]
  · intro c hc
    obtain ⟨x, _, rfl⟩ := List.mem_map.mp hc
    exact ⟨rfl, rfl⟩

/-- C3 amended witness: the concrete overflow state demotes its single
(oldest) active batch. -/
theorem balance_overflow_demotes_oldest_batches_witness :
    (balance 5 (statsOf csC3) csC3).active = csC3.active.drop 1 ∧
    (balance 5 (statsOf csC3) csC3).fadingOut =
      csC3.fadingOut ++ (csC3.active.take 1).map (demoteConn 5) ∧
    (balance 5 (statsOf csC3) csC3).fadingIn = csC3.fadingIn ∧
    (balance 5 (statsOf csC3) csC3).pendingRemoval = csC3.pendingRemoval ∧
    (balance 5 (statsOf csC3) csC3).fadingOut.length = csC3.fadingOut.length + 1 ∧
    hubTotal (balance 5 (statsOf csC3) csC3).fadingOut =
      hubTotal csC3.fadingOut + hubTotal (csC3.active.take 1) ∧
    ∀ c ∈ (csC3.active.take 1).map (demoteConn 5),
      c.state = "fadingOut" ∧ c.startTime = 5 :=
  balance_overflow_demotes_oldest_batches 5 (statsOf csC3) csC3 1 (by decide) (by decide)

theorem insertSorted_perm (c : Candidate) (l : List Candidate) :
    List.Perm (insertSorted c l) (c :: l) := by
  induction l with
  | nil => exact List.Perm.refl _
  | cons d ds ih =>
      unfold insertSorted
      split
      · exact List.Perm.refl _
      · exact (ih.cons d).trans (List.Perm.swap c d ds)

theorem sortByDist_perm (l : List Candidate) : List.Perm (sortByDist l) l := by
  induction l with
  | nil => exact List.Perm.refl _
  | cons c cs ih => exact (insertSorted_perm c (sortByDist cs)).trans (ih.cons c)

theorem insertSorted_sorted (c : Candidate) (l : List Candidate)
    (hl : List.Sorted (fun a b : Candidate => a.dSq ≤ b.dSq) l) :
    List.Sorted (fun a b : Candidate => a.dSq ≤ b.dSq) (insertSorted c l) := by
  induction l with
  | nil => simp [insertSorted]
  | cons d ds ih =>
      rw [List.sorted_cons] at hl
      obtain ⟨hd, hds⟩ := hl
      unfold insertSorted
      split
      case isTrue hcd =>
        rw [List.sorted_cons]
        refine ⟨?_, ?_⟩
        · intro b hb
          rcases List.mem_cons.mp hb with rfl | hb
          · exact hcd
          · exact le_trans hcd (hd b hb)
        · rw [List.sorted_cons]
          exact ⟨hd, hds⟩
      case isFalse hcd =>
        rw [List.sorted_cons]
        refine ⟨?_, ih hds⟩
        intro b hb
        have hb' := (insertSorted_perm c ds).mem_iff.mp hb
        rcases List.mem_cons.mp hb' with rfl | hb'
        · exact le_of_not_le hcd
        · exact hd b hb'

theorem sortByDist_sorted (l : List Candidate) :
    List.Sorted (fun a b : Candidate => a.dSq ≤ b.dSq) (sortByDist l) := by
  induction l with
  | nil => simp [sortByDist]
  | cons c cs ih => exact insertSorted_sorted c _ ih

theorem mem_sampleNeighbors (positions : Nat → Vec3) (hubIndex : Nat) (draws : List Nat)
    (s : Candidate) (hs : s ∈ sampleNeighbors positions hubIndex draws) :
    s.dSq < CONNECTION_THRESHOLD ^ 2 ∧ s.position = positions s.index ∧
    s.index ∈ draws ∧ s.index ≠ hubIndex := by
  induction draws with
  | nil => cases hs
  | cons j rest ih =>
      unfold sampleNeighbors at hs
      by_cases h1 : j = hubIndex
      · rw [if_pos h1] at hs
        obtain ⟨ha, hb, hc, hd⟩ := ih hs
        exact ⟨ha, hb, List.mem_cons_of_mem j hc, hd⟩
      · rw [if_neg h1] at hs
        dsimp only at hs
        by_cases h2 : distSq (positions j) (positions hubIndex) < CONNECTION_THRESHOLD ^ 2
        · rw [if_pos h2] at hs
          rcases List.mem_cons.mp hs with rfl | hs
          · exact ⟨h2, rfl, List.mem_cons_self j rest, h1⟩
          · obtain ⟨ha, hb, hc, hd⟩ := ih hs
            exact ⟨ha, hb, List.mem_cons_of_mem j hc, hd⟩
        · rw [if_neg h2] at hs
          obtain ⟨ha, hb, hc, hd⟩ := ih hs
          exact ⟨ha, hb, List.mem_cons_of_mem j hc, hd⟩

/-- C6. Every hub emitted by the builder has exactly 3 spokes: the
three closest sampled candidates under the threshold, sorted
ascending by distance and each no farther than every unchosen
candidate; when fewer than 3 candidates qualify, the anchor is
silently skipped (no partial hub). -/
theorem buildHub_exactly_three_closest_spokes (positions : Nat → Vec3) (hubIndex : Nat)
    (center : Vec3) (draws : List Nat) :
    (buildHub positions hubIndex center draws = none ↔
      (sampleNeighbors positions hubIndex draws).length < 3) ∧
    ∀ hb : Hub, buildHub positions hubIndex center draws = some hb →
      hb.center = center ∧
      hb.spokes.length = 3 ∧
      List.Sorted (fun a b : Candidate => a.dSq ≤ b.dSq) hb.spokes ∧
      (∀ s ∈ hb.spokes, s ∈ sampleNeighbors positions hubIndex draws ∧
        s.dSq < CONNECTION_THRESHOLD ^ 2 ∧ s.position = positions s.index ∧
        s.index ∈ draws ∧ s.index ≠ hubIndex) ∧
      ∃ rest : List Candidate,
        List.Perm (sampleNeighbors positions hubIndex draws) (hb.spokes ++ rest) ∧
        ∀ fa ∈ hb.spokes, ∀ fb ∈ rest, fa.dSq ≤ fb.dSq := by
  have hperm := sortByDist_perm (sampleNeighbors positions hubIndex draws)
  have hsort := sortByDist_sorted (sampleNeighbors positions hubIndex draws)
  have hlen : (sortByDist (sampleNeighbors positions hubIndex draws)).length =
      (sampleNeighbors positions hubIndex draws).length := hperm.length_eq
  constructor
  · unfold buildHub
    dsimp only
    split
    case isTrue hge =>
      rw [hlen] at hge
      exact ⟨fun hcontra => (Option.some_ne_none _ hcontra).elim, fun hlt => by omega⟩
    case isFalse hge =>
      rw [hlen] at hge
      exact ⟨fun _ => by omega, fun _ => rfl⟩
  · intro hb hsome
    unfold buildHub at hsome
    dsimp only at hsome
    split at hsome
    case isFalse hge => cases hsome
    case isTrue hge =>
      obtain rfl := Option.some.inj hsome
      refine ⟨rfl, ?_, ?_, ?_, ?_⟩
      · rw [List.length_take]
        omega
      · exact List.Pairwise.sublist (List.take_sublist 3 _) hsort
      · intro s hs
        have hmem : s ∈ sortByDist (sampleNeighbors positions hubIndex draws) :=
          List.mem_of_mem_take hs
        have hsamp : s ∈ sampleNeighbors positions hubIndex draws := hperm.mem_iff.mp hmem
        have hprops := mem_sampleNeighbors positions hubIndex draws s hsamp
        exact ⟨hsamp, hprops⟩
      · refine ⟨(sortByDist (sampleNeighbors positions hubIndex draws)).drop 3, ?_, ?_⟩
        · rw [List.take_append_drop]
          exact hperm.symm
        · have hsplit := hsort
          rw [← List.take_append_drop 3
            (sortByDist (sampleNeighbors positions hubIndex draws))] at hsplit
          exact (List.pairwise_append.mp hsplit).2.2

/-- C6 witness: with three qualifying draws at distance 1 from the
anchor, the builder emits the hub hub6 and the theorem's
characterisation holds for it. -/
theorem buildHub_exactly_three_closest_spokes_witness :
    hub6.center = (0, 0, 0) ∧
    hub6.spokes.length = 3 ∧
    List.Sorted (fun a b : Candidate => a.dSq ≤ b.dSq) hub6.spokes ∧
    (∀ s ∈ hub6.spokes, s ∈ sampleNeighbors positions6 0 [1, 2, 3] ∧
      s.dSq < CONNECTION_THRESHOLD ^ 2 ∧ s.position = positions6 s.index ∧
      s.index ∈ [1, 2, 3] ∧ s.index ≠ 0) ∧
    ∃ rest : List Candidate,
      List.Perm (sampleNeighbors positions6 0 [1, 2, 3]) (hub6.spokes ++ rest) ∧
      ∀ fa ∈ hub6.spokes, ∀ fb ∈ rest, fa.dSq ≤ fb.dSq :=
  (buildHub_exactly_three_closest_spokes positions6 0 (0, 0, 0) [1, 2, 3]).2 hub6
    (by norm_num [buildHub, sampleNeighbors, sortByDist, insertSorted, distSq, positions6,
      hub6, CONNECTION_THRESHOLD])

/-- C9. The neighbour sampler draws with replacement and does not
deduplicate: fifty draws that hit the close point 1 three times give
a hub whose three spokes all connect to point 1; and the draw equal
to the anchor is skipped rather than redrawn, so only 49 of the 50
probes perform a distance check. -/
theorem sampler_duplicates_and_skipped_probes :
    draws9.length = 50 ∧
    Option.map (fun hb => hb.spokes.map Candidate.index)
      (buildHub positions9 0 (0, 0, 0) draws9) = some [1, 1, 1] ∧
    ¬ ([1, 1, 1] : List Nat).Nodup ∧
    probesChecked 0 draws9 = 49 ∧ probesChecked 0 draws9 < 50 := by
  refine ⟨by decide, ?_, by decide, by decide, by decide⟩
  norm_num [buildHub, sampleNeighbors, sortByDist, insertSorted, distSq, positions9,
    draws9, CONNECTION_THRESHOLD, List.replicate]

/-- Unfolded form of one updateConnections evaluation. -/
theorem updateConnections_eq (sin : ℚ → ℚ) (tNow : ℚ) (scene : List Nat)
    (cs : ConnectionStates) :
    updateConnections sin tNow scene cs =
      (scene.filter (fun i => cs.pendingRemoval.all (fun c => c.id != i)),
       ⟨(cs.active ++ cs.fadingIn.filter
            (fun c => decide (FADE_IN_DURATION < tNow - c.startTime))).map (activeUpdate sin tNow),
        (cs.fadingIn.filter
            (fun c => !decide (FADE_IN_DURATION < tNow - c.startTime))).map (fadeInUpdate tNow),
        (cs.fadingOut.filter
            (fun c => !decide (FADE_OUT_DURATION < tNow - c.startTime))).map (fadeOutUpdate tNow),
        cs.fadingOut.filter (fun c => decide (FADE_OUT_DURATION < tNow - c.startTime))⟩) := rfl

/-- C1 (amended). A tick evaluated while every fading batch's elapsed
time is still at most its fade duration (in particular at
elapsed = 0) fires no bucket transition and leaves every stored
opacities array unchanged; it is however not a no-op on the color
values, which the iterative blending keeps mutating (see the
counterexample theorem). -/
theorem updateConnections_before_duration_no_transition (sin : ℚ → ℚ) (tNow : ℚ)
    (scene : List Nat) (cs : ConnectionStates)
    (hIn : ∀ c ∈ cs.fadingIn, tNow - c.startTime ≤ FADE_IN_DURATION)
    (hOut : ∀ c ∈ cs.fadingOut, tNow - c.startTime ≤ FADE_OUT_DURATION) :
    ((updateConnections sin tNow scene cs).2.fadingIn.map (fun c => (c.id, c.opacities)) =
      cs.fadingIn.map (fun c => (c.id, c.opacities))) ∧
    ((updateConnections sin tNow scene cs).2.fadingOut.map (fun c => (c.id, c.opacities)) =
      cs.fadingOut.map (fun c => (c.id, c.opacities))) ∧
    ((updateConnections sin tNow scene cs).2.active.map (fun c => (c.id, c.opacities)) =
      cs.active.map (fun c => (c.id, c.opacities))) ∧
    (updateConnections sin tNow scene cs).2.pendingRemoval = [] := by
  have hInF : cs.fadingIn.filter
      (fun c => decide (FADE_IN_DURATION < tNow - c.startTime)) = [] := by
    rw [List.filter_eq_nil_iff]
    intro c hc
    simpa using not_lt.mpr (hIn c hc)
  have hInS : cs.fadingIn.filter
      (fun c => !decide (FADE_IN_DURATION < tNow - c.startTime)) = cs.fadingIn := by
    rw [List.filter_eq_self]
    intro c hc
    simpa using not_lt.mpr (hIn c hc)
  have hOutF : cs.fadingOut.filter
      (fun c => decide (FADE_OUT_DURATION < tNow - c.startTime)) = [] := by
    rw [List.filter_eq_nil_iff]
    intro c hc
    simpa using not_lt.mpr (hOut c hc)
  have hOutS : cs.fadingOut.filter
      (fun c => !decide (FADE_OUT_DURATION < tNow - c.startTime)) = cs.fadingOut := by
    rw [List.filter_eq_self]
    intro c hc
    simpa using not_lt.mpr (hOut c hc)
  rw [updateConnections_eq]
  refine ⟨?_, ?_, ?_, hOutF⟩
  · dsimp only
    rw [hInS, List.map_map]
    exact List.map_congr_left (fun c _ => rfl)
  · dsimp only
    rw [hOutS, List.map_map]
    exact List.map_congr_left (fun c _ => rfl)
  · dsimp only
    rw [hInF, List.append_nil, List.map_map]
    exact List.map_congr_left (fun c _ => by simp)

/-- C1 amended witness: at elapsed 0 the concrete fading-in batch
keeps its bucket and opacities. -/
theorem updateConnections_before_duration_no_transition_witness :
    ((updateConnections (fun _ => 0) 0 [] csC1).2.fadingIn.map (fun c => (c.id, c.opacities)) =
      csC1.fadingIn.map (fun c => (c.id, c.opacities))) ∧
    ((updateConnections (fun _ => 0) 0 [] csC1).2.fadingOut.map (fun c => (c.id, c.opacities)) =
      csC1.fadingOut.map (fun c => (c.id, c.opacities))) ∧
    ((updateConnections (fun _ => 0) 0 [] csC1).2.active.map (fun c => (c.id, c.opacities)) =
      csC1.active.map (fun c => (c.id, c.opacities))) ∧
    (updateConnections (fun _ => 0) 0 [] csC1).2.pendingRemoval = [] :=
  updateConnections_before_duration_no_transition (fun _ => 0) 0 [] csC1
    (by intro c hc
        simp only [csC1, List.mem_singleton] at hc
        subst hc
        norm_num [connC1, FADE_IN_DURATION])
    (by intro c hc
        simp [csC1] at hc)

/-- C1 counterexample: a tick at elapsed exactly 0 is not a no-op on
the color values: every color component of the fading-in batch connC1
is multiplied by 0.9 (the blend toward the target opacity 0), taking
the buffer from all 1 to all 0.9. -/
theorem updateConnections_elapsed_zero_mutates_colors :
    ((updateConnections (fun _ => 0) 0 [] csC1).2.fadingIn.map Conn.colors =
      [List.replicate 18 (9/10)]) ∧
    csC1.fadingIn.map Conn.colors = [List.replicate 18 1] ∧
    ((9 : ℚ)/10) ≠ 1 := by
  refine ⟨?_, by simp [csC1, connC1], by norm_num⟩
  rw [updateConnections_eq]
  norm_num [csC1, connC1, fadeInUpdate, mapIdxQ, FADE_IN_DURATION, List.replicate,
    List.filter]

/-- C8. A batch sitting in fadingOut with startTime t0 is found or
placed in pendingRemoval by the tick evaluated at any time
t0 + FADE_OUT_DURATION + eps with eps > 0, and the following tick
detaches its render geometry from the scene. -/
theorem fadingOut_to_pendingRemoval_then_detached (sin sin2 : ℚ → ℚ) (t0 eps t2 : ℚ)
    (scene : List Nat) (cs : ConnectionStates) (b : Conn)
    (hmem : b ∈ cs.fadingOut) (hst : b.startTime = t0) (heps : 0 < eps) :
    b ∈ (updateConnections sin (t0 + FADE_OUT_DURATION + eps) scene cs).2.pendingRemoval ∧
    b.id ∉ (updateConnections sin2 t2
      (updateConnections sin (t0 + FADE_OUT_DURATION + eps) scene cs).1
      (updateConnections sin (t0 + FADE_OUT_DURATION + eps) scene cs).2).1 := by
  have hcond : decide
      (FADE_OUT_DURATION < (t0 + FADE_OUT_DURATION + eps) - b.startTime) = true := by
    apply decide_eq_true
    rw [hst]
    linarith
  have hb1 : b ∈ (updateConnections sin (t0 + FADE_OUT_DURATION + eps) scene cs).2.pendingRemoval := by
    rw [updateConnections_eq]
    exact List.mem_filter.mpr ⟨hmem, hcond⟩
  refine ⟨hb1, ?_⟩
  intro hcontra
  rw [updateConnections_eq] at hcontra
  have hall := (List.mem_filter.mp hcontra).2
  rw [List.all_eq_true] at hall
  have hself := hall b hb1
  simp at hself

/-- C8 witness: the concrete batch connC8 that entered fadingOut at
time 0 is pending removal after the tick at 0 + 1.5 + 1 and is out of
the scene after the following tick. -/
theorem fadingOut_to_pendingRemoval_then_detached_witness :
    connC8 ∈ (updateConnections (fun _ => 0) (0 + FADE_OUT_DURATION + 1) [5] csC8).2.pendingRemoval ∧
    connC8.id ∉ (updateConnections (fun _ => 0) 10
      (updateConnections (fun _ => 0) (0 + FADE_OUT_DURATION + 1) [5] csC8).1
      (updateConnections (fun _ => 0) (0 + FADE_OUT_DURATION + 1) [5] csC8).2).1 :=
  fadingOut_to_pendingRemoval_then_detached (fun _ => 0) (fun _ => 0) 0 1 10 [5] csC8 connC8
    (by simp [csC8]) rfl (by norm_num)

/-! Helper lemmas for the bucket-rank analysis of one render step. -/

theorem bucketRank_of_fadingIn (cs : ConnectionStates) (i : Nat)
    (h : i ∈ idsOf cs.fadingIn) : bucketRank cs i = 0 := by
  unfold bucketRank
  rw [if_pos h]

theorem bucketRank_of_active (cs : ConnectionStates) (i : Nat)
    (h1 : i ∉ idsOf cs.fadingIn) (h2 : i ∈ idsOf cs.active) : bucketRank cs i = 1 := by
  unfold bucketRank
  rw [if_neg h1, if_pos h2]

theorem bucketRank_of_fadingOut (cs : ConnectionStates) (i : Nat)
    (h1 : i ∉ idsOf cs.fadingIn) (h2 : i ∉ idsOf cs.active)
    (h3 : i ∈ idsOf cs.fadingOut) : bucketRank cs i = 2 := by
  unfold bucketRank
  rw [if_neg h1, if_neg h2, if_pos h3]

theorem bucketRank_of_pendingRemoval (cs : ConnectionStates) (i : Nat)
    (h1 : i ∉ idsOf cs.fadingIn) (h2 : i ∉ idsOf cs.active)
    (h3 : i ∉ idsOf cs.fadingOut) (h4 : i ∈ idsOf cs.pendingRemoval) :
    bucketRank cs i = 3 := by
  unfold bucketRank
  rw [if_neg h1, if_neg h2, if_neg h3, if_pos h4]

theorem bucketRank_of_absent (cs : ConnectionStates) (i : Nat)
    (h1 : i ∉ idsOf cs.fadingIn) (h2 : i ∉ idsOf cs.active)
    (h3 : i ∉ idsOf cs.fadingOut) (h4 : i ∉ idsOf cs.pendingRemoval) :
    bucketRank cs i = 4 := by
  unfold bucketRank
  rw [if_neg h1, if_neg h2, if_neg h3, if_neg h4]

theorem bucketRank_le_one (cs : ConnectionStates) (i : Nat)
    (h : i ∈ idsOf cs.fadingIn ∨ i ∈ idsOf cs.active) : bucketRank cs i ≤ 1 := by
  unfold bucketRank
  split_ifs <;> first | omega | tauto

theorem idsOf_sublist {l1 l2 : List Conn} (h : l1.Sublist l2) : idsOf l1 ⊆ idsOf l2 :=
  (h.map Conn.id).subset

theorem idsOf_filter_subset (p : Conn → Bool) (l : List Conn) :
    idsOf (l.filter p) ⊆ idsOf l :=
  idsOf_sublist (List.filter_sublist l)

theorem count_idsOf_filter_split (p q : Conn → Bool) (hq : ∀ c, q c = !(p c))
    (l : List Conn) (a : Nat) :
    (idsOf (l.filter p)).count a + (idsOf (l.filter q)).count a = (idsOf l).count a := by
  have hfq : l.filter q = l.filter (fun c => !(p c)) :=
    List.filter_congr (fun c _ => hq c)
  rw [hfq]
  have h := (List.filter_append_perm p l).map Conn.id
  have hc := h.count_eq a
  simpa [idsOf, List.count_append] using hc

/-- Core of the per-tick bucket analysis: one updateConnections
evaluation applied to the state obtained from buckets F (fadingIn),
A (active), G (fadingOut), P (pendingRemoval) by demoting the n
oldest active batches (with startTime reset to the tick time) and
appending fresh batches NF to fadingIn and NA to active.  Ids stay
duplicate-free, and every previously present id keeps its rank or
advances by exactly one bucket. -/
theorem renderStep_core (sin : ℚ → ℚ) (tNow : ℚ) (scene : List Nat)
    (F A G P NF NA : List Conn) (n : Nat) (cs2 : ConnectionStates)
    (hwf : (allIds ⟨A, F, G, P⟩).Nodup)
    (hnew : ∀ x ∈ NF ++ NA, x.id ∉ allIds ⟨A, F, G, P⟩)
    (hnewnd : (idsOf (NF ++ NA)).Nodup)
    (hcs2 : cs2 = ⟨A.drop n ++ NA, F ++ NF, G ++ (A.take n).map (demoteConn tNow), P⟩) :
    (allIds (updateConnections sin tNow scene cs2).2).Nodup ∧
    ∀ i ∈ allIds ⟨A, F, G, P⟩,
      bucketRank ⟨A, F, G, P⟩ i ≤ bucketRank (updateConnections sin tNow scene cs2).2 i ∧
      bucketRank (updateConnections sin tNow scene cs2).2 i ≤ bucketRank ⟨A, F, G, P⟩ i + 1 ∧
      (i ∈ idsOf G →
        i ∉ idsOf (updateConnections sin tNow scene cs2).2.active ∧
        i ∉ idsOf (updateConnections sin tNow scene cs2).2.fadingIn) := by
  subst hcs2
  have hD1 : ((A.take n).map (demoteConn tNow)).filter
      (fun c => decide (FADE_OUT_DURATION < tNow - c.startTime)) = [] := by
    rw [List.filter_eq_nil_iff]
    intro c hc
    obtain ⟨x, _, rfl⟩ := List.mem_map.mp hc
    simp only [demoteConn_startTime, sub_self, decide_eq_true_eq]
    norm_num [FADE_OUT_DURATION]
  have hD2 : ((A.take n).map (demoteConn tNow)).filter
      (fun c => !decide (FADE_OUT_DURATION < tNow - c.startTime)) =
      (A.take n).map (demoteConn tNow) := by
    rw [List.filter_eq_self]
    intro c hc
    obtain ⟨x, _, rfl⟩ := List.mem_map.mp hc
    simp only [demoteConn_startTime, sub_self, Bool.not_eq_true', decide_eq_false_iff_not]
    norm_num [FADE_OUT_DURATION]
  set U := (updateConnections sin tNow scene
    ⟨A.drop n ++ NA, F ++ NF, G ++ (A.take n).map (demoteConn tNow), P⟩).2 with hU
  have hIn : idsOf U.fadingIn =
      idsOf ((F ++ NF).filter (fun c => !decide (FADE_IN_DURATION < tNow - c.startTime))) := by
    rw [hU, updateConnections_eq]
    exact idsOf_map_eq _ (fadeInUpdate_id tNow) _
  have hAct : idsOf U.active =
      (idsOf (A.drop n) ++ idsOf NA) ++
        idsOf ((F ++ NF).filter (fun c => decide (FADE_IN_DURATION < tNow - c.startTime))) := by
    rw [hU, updateConnections_eq]
    show idsOf (((A.drop n ++ NA) ++ _).map (activeUpdate sin tNow)) = _
    rw [idsOf_map_eq _ (activeUpdate_id sin tNow), idsOf_append, idsOf_append]
  have hOut : idsOf U.fadingOut =
      idsOf (G.filter (fun c => !decide (FADE_OUT_DURATION < tNow - c.startTime))) ++
        idsOf (A.take n) := by
    rw [hU, updateConnections_eq]
    show idsOf (((G ++ (A.take n).map (demoteConn tNow)).filter _).map (fadeOutUpdate tNow)) = _
    rw [idsOf_map_eq _ (fadeOutUpdate_id tNow), List.filter_append, hD2, idsOf_append,
      idsOf_map_eq _ (demoteConn_id tNow)]
  have hPend : idsOf U.pendingRemoval =
      idsOf (G.filter (fun c => decide (FADE_OUT_DURATION < tNow - c.startTime))) := by
    rw [hU, updateConnections_eq]
    show idsOf ((G ++ (A.take n).map (demoteConn tNow)).filter _) = _
    rw [List.filter_append, hD1, List.append_nil]
  have hcnt0 : ∀ a : Nat, (idsOf F).count a + (idsOf A).count a + (idsOf G).count a +
      (idsOf P).count a ≤ 1 := by
    intro a
    have h := List.nodup_iff_count_le_one.mp hwf a
    have h2 : (idsOf F).count a + ((idsOf A).count a + ((idsOf G).count a +
        (idsOf P).count a)) ≤ 1 := by
      simpa [allIds, List.count_append] using h
    omega
  have hnewCnt : ∀ a : Nat, a ∈ allIds ⟨A, F, G, P⟩ →
      (idsOf NF).count a = 0 ∧ (idsOf NA).count a = 0 := by
    intro a ha
    constructor <;> rw [List.count_eq_zero] <;> intro hmem
    · obtain ⟨x, hx, rfl⟩ := (mem_idsOf _ _).mp hmem
      exact hnew x (List.mem_append_left _ hx) ha
    · obtain ⟨x, hx, rfl⟩ := (mem_idsOf _ _).mp hmem
      exact hnew x (List.mem_append_right _ hx) ha
  have hsplitIn := fun a => count_idsOf_filter_split
    (fun c => decide (FADE_IN_DURATION < tNow - c.startTime))
    (fun c => !decide (FADE_IN_DURATION < tNow - c.startTime)) (fun c => rfl) (F ++ NF) a
  have hsplitOut := fun a => count_idsOf_filter_split
    (fun c => decide (FADE_OUT_DURATION < tNow - c.startTime))
    (fun c => !decide (FADE_OUT_DURATION < tNow - c.startTime)) (fun c => rfl) G a
  have hTD : ∀ a : Nat, (idsOf (A.take n)).count a + (idsOf (A.drop n)).count a =
      (idsOf A).count a := by
    intro a
    rw [← List.count_append, ← idsOf_append, List.take_append_drop]
  have hkey : ∀ a : Nat, (allIds U).count a + (idsOf P).count a =
      (allIds ⟨A, F, G, P⟩).count a + (idsOf NF).count a + (idsOf NA).count a := by
    intro a
    have h1 := hsplitIn a
    have h2 := hsplitOut a
    have h3 := hTD a
    simp only [allIds, hIn, hAct, hOut, hPend, idsOf_append, List.count_append] at h1 ⊢
    omega
  refine ⟨?_, ?_⟩
  · rw [List.nodup_iff_count_le_one]
    intro a
    have hk := hkey a
    by_cases hmem : a ∈ allIds ⟨A, F, G, P⟩
    · have hc1 := List.nodup_iff_count_le_one.mp hwf a
      obtain ⟨hnf0, hna0⟩ := hnewCnt a hmem
      omega
    · have h0 : (allIds ⟨A, F, G, P⟩).count a = 0 := List.count_eq_zero.mpr hmem
      have hnn := List.nodup_iff_count_le_one.mp hnewnd a
      rw [idsOf_append, List.count_append] at hnn
      omega
  · intro i hi
    have hiPos : (allIds ⟨A, F, G, P⟩).count i ≠ 0 :=
      fun h0 => (List.count_eq_zero.mp h0) hi
    have hiSum : 1 ≤ (idsOf F).count i + (idsOf A).count i + (idsOf G).count i +
        (idsOf P).count i := by
      simp only [allIds, List.count_append] at hiPos
      omega
    obtain ⟨hNF0, hNA0⟩ := hnewCnt i hi
    have hiNF : i ∉ idsOf NF := List.count_eq_zero.mp hNF0
    have hiNA : i ∉ idsOf NA := List.count_eq_zero.mp hNA0
    have hbound := hcnt0 i
    have hnotfIn : i ∉ idsOf F → i ∉ idsOf U.fadingIn := by
      intro hiF hmem
      rw [hIn] at hmem
      have := idsOf_filter_subset _ _ hmem
      rw [idsOf_append] at this
      rcases List.mem_append.mp this with h | h
      · exact hiF h
      · exact hiNF h
    have hsubDrop : idsOf (A.drop n) ⊆ idsOf A := idsOf_sublist (List.drop_sublist n A)
    have hsubTake : idsOf (A.take n) ⊆ idsOf A := idsOf_sublist (List.take_sublist n A)
    by_cases hiF : i ∈ idsOf F
    · -- the batch was fading in: it stays there or moves to active
      have hcF : (idsOf F).count i ≠ 0 := fun h0 => (List.count_eq_zero.mp h0) hiF
      have hiG : i ∉ idsOf G := List.count_eq_zero.mp (by omega)
      have hr0 : bucketRank ⟨A, F, G, P⟩ i = 0 := bucketRank_of_fadingIn _ _ hiF
      obtain ⟨c, hcmem, hcid⟩ := (mem_idsOf i F).mp hiF
      have hrank1 : bucketRank U i ≤ 1 := by
        apply bucketRank_le_one
        by_cases hp : decide (FADE_IN_DURATION < tNow - c.startTime) = true
        · right
          rw [hAct]
          apply List.mem_append_right
          exact (mem_idsOf i _).mpr
            ⟨c, List.mem_filter.mpr ⟨List.mem_append_left _ hcmem, hp⟩, hcid⟩
        · left
          rw [hIn]
          simp only [Bool.not_eq_true] at hp
          exact (mem_idsOf i _).mpr
            ⟨c, List.mem_filter.mpr ⟨List.mem_append_left _ hcmem, by rw [hp]; rfl⟩, hcid⟩
      exact ⟨by omega, by omega, fun hiG' => absurd hiG' hiG⟩
    · by_cases hiA : i ∈ idsOf A
      · -- the batch was active: it stays there or is demoted to fadingOut
        have hcA : (idsOf A).count i ≠ 0 := fun h0 => (List.count_eq_zero.mp h0) hiA
        have hiG : i ∉ idsOf G := List.count_eq_zero.mp (by omega)
        have hr1 : bucketRank ⟨A, F, G, P⟩ i = 1 := bucketRank_of_active _ _ hiF hiA
        have hfIn' := hnotfIn hiF
        have hnotact_parts : i ∉ idsOf ((F ++ NF).filter
            (fun c => decide (FADE_IN_DURATION < tNow - c.startTime))) := by
          intro hmem
          have := idsOf_filter_subset _ _ hmem
          rw [idsOf_append] at this
          rcases List.mem_append.mp this with h | h
          · exact hiF h
          · exact hiNF h
        have hTDi := hTD i
        have : i ∈ idsOf (A.take n) ++ idsOf (A.drop n) := by
          rw [← idsOf_append, List.take_append_drop]
          exact hiA
        rcases List.mem_append.mp this with hTake | hDrop
        · -- demoted batch: now fading out, with startTime tNow, so it stays
          have hcTake : (idsOf (A.take n)).count i ≠ 0 :=
            fun h0 => (List.count_eq_zero.mp h0) hTake
          have hnotDrop : i ∉ idsOf (A.drop n) := List.count_eq_zero.mp (by omega)
          have hact' : i ∉ idsOf U.active := by
            rw [hAct]
            intro hmem
            rcases List.mem_append.mp hmem with h | h
            · rcases List.mem_append.mp h with h' | h'
              · exact hnotDrop h'
              · exact hiNA h'
            · exact hnotact_parts h
          have hfOut' : i ∈ idsOf U.fadingOut := by
            rw [hOut]
            exact List.mem_append_right _ hTake
          have hr2 : bucketRank U i = 2 := bucketRank_of_fadingOut _ _ hfIn' hact' hfOut'
          exact ⟨by omega, by omega, fun hiG' => absurd hiG' hiG⟩
        · -- surviving active batch
          have hact' : i ∈ idsOf U.active := by
            rw [hAct]
            exact List.mem_append_left _ (List.mem_append_left _ hDrop)
          have hr1' : bucketRank U i = 1 := bucketRank_of_active _ _ hfIn' hact'
          exact ⟨by omega, by omega, fun hiG' => absurd hiG' hiG⟩
      · by_cases hiG : i ∈ idsOf G
        · -- the batch was fading out: it stays there or reaches pendingRemoval
          have hcG : (idsOf G).count i ≠ 0 := fun h0 => (List.count_eq_zero.mp h0) hiG
          have hr2 : bucketRank ⟨A, F, G, P⟩ i = 2 := bucketRank_of_fadingOut _ _ hiF hiA hiG
          have hfIn' := hnotfIn hiF
          have hact' : i ∉ idsOf U.active := by
            rw [hAct]
            intro hmem
            rcases List.mem_append.mp hmem with h | h
            · rcases List.mem_append.mp h with h' | h'
              · exact hiA (hsubDrop h')
              · exact hiNA h'
            · have := idsOf_filter_subset _ _ h
              rw [idsOf_append] at this
              rcases List.mem_append.mp this with h' | h'
              · exact hiF h'
              · exact hiNF h'
          obtain ⟨c, hcmem, hcid⟩ := (mem_idsOf i G).mp hiG
          have hsplitG := hsplitOut i
          by_cases hp : decide (FADE_OUT_DURATION < tNow - c.startTime) = true
          · -- moved to pendingRemoval
            have hpend' : i ∈ idsOf U.pendingRemoval := by
              rw [hPend]
              exact (mem_idsOf i _).mpr
                ⟨c, List.mem_filter.mpr ⟨hcmem, hp⟩, hcid⟩
            have hcMoved : (idsOf (G.filter
                (fun c => decide (FADE_OUT_DURATION < tNow - c.startTime)))).count i ≠ 0 := by
              intro h0
              exact (List.count_eq_zero.mp h0) (by
                exact (mem_idsOf i _).mpr ⟨c, List.mem_filter.mpr ⟨hcmem, hp⟩, hcid⟩)
            have hnotStay : i ∉ idsOf (G.filter
                (fun c => !decide (FADE_OUT_DURATION < tNow - c.startTime))) :=
              List.count_eq_zero.mp (by omega)
            have hfOut' : i ∉ idsOf U.fadingOut := by
              rw [hOut]
              intro hmem
              rcases List.mem_append.mp hmem with h | h
              · exact hnotStay h
              · exact hiA (hsubTake h)
            have hr3 : bucketRank U i = 3 :=
              bucketRank_of_pendingRemoval _ _ hfIn' hact' hfOut' hpend'
            exact ⟨by omega, by omega, fun _ => ⟨hact', hfIn'⟩⟩
          · -- still fading out
            have hfOut' : i ∈ idsOf U.fadingOut := by
              rw [hOut]
              apply List.mem_append_left
              simp only [Bool.not_eq_true] at hp
              exact (mem_idsOf i _).mpr
                ⟨c, List.mem_filter.mpr ⟨hcmem, by rw [hp]; rfl⟩, hcid⟩
            have hr2' : bucketRank U i = 2 := bucketRank_of_fadingOut _ _ hfIn' hact' hfOut'
            exact ⟨by omega, by omega, fun _ => ⟨hact', hfIn'⟩⟩
        · -- the batch was pending removal: it is dropped entirely
          have hiP : i ∈ idsOf P := by
            have hcF : (idsOf F).count i = 0 := List.count_eq_zero.mpr hiF
            have hcA : (idsOf A).count i = 0 := List.count_eq_zero.mpr hiA
            have hcG : (idsOf G).count i = 0 := List.count_eq_zero.mpr hiG
            have : (idsOf P).count i ≠ 0 := by omega
            by_contra hnot
            exact this (List.count_eq_zero.mpr hnot)
          have hr3 : bucketRank ⟨A, F, G, P⟩ i = 3 :=
            bucketRank_of_pendingRemoval _ _ hiF hiA hiG hiP
          have hfIn' := hnotfIn hiF
          have hact' : i ∉ idsOf U.active := by
            rw [hAct]
            intro hmem
            rcases List.mem_append.mp hmem with h | h
            · rcases List.mem_append.mp h with h' | h'
              · exact hiA (hsubDrop h')
              · exact hiNA h'
            · have := idsOf_filter_subset _ _ h
              rw [idsOf_append] at this
              rcases List.mem_append.mp this with h' | h'
              · exact hiF h'
              · exact hiNF h'
          have hfOut' : i ∉ idsOf U.fadingOut := by
            rw [hOut]
            intro hmem
            rcases List.mem_append.mp hmem with h | h
            · exact hiG (idsOf_filter_subset _ _ h)
            · exact hiA (hsubTake h)
          have hpend' : i ∉ idsOf U.pendingRemoval := by
            rw [hPend]
            intro hmem
            exact hiG (idsOf_filter_subset _ _ hmem)
          have hr4 : bucketRank U i = 4 :=
            bucketRank_of_absent _ _ hfIn' hact' hfOut' hpend'
          exact ⟨by omega, by omega, fun hiG' => absurd hiG' hiG⟩

/-- C5. One render-tick evaluation of the connection logic (balancer
demotions when the cycle is due, insertion of an optionally built
fresh batch, then updateConnections) keeps every batch in exactly one
bucket (all ids stay duplicate-free) and moves every pre-existing
batch strictly forward along fadingIn, active, fadingOut,
pendingRemoval, deleted by at most one step, never backward; in
particular a batch observed in fadingOut is never in active or
fadingIn after the step. -/
theorem lifecycle_buckets_monotone_step (sin : ℚ → ℚ) (tNow : ℚ) (due : Bool)
    (stats : Stats) (connections : Option Conn) (newBatch : Option Conn)
    (scene : List Nat) (cs : ConnectionStates)
    (hwf : (allIds cs).Nodup)
    (hfresh : ∀ nb, newBatch = some nb → nb.id ∉ allIds cs) :
    (allIds (renderConnectionStep sin tNow due stats connections newBatch scene cs).2.2).Nodup ∧
    ∀ i ∈ allIds cs,
      bucketRank cs i ≤
        bucketRank (renderConnectionStep sin tNow due stats connections newBatch scene cs).2.2 i ∧
      bucketRank (renderConnectionStep sin tNow due stats connections newBatch scene cs).2.2 i ≤
        bucketRank cs i + 1 ∧
      (i ∈ idsOf cs.fadingOut →
        i ∉ idsOf (renderConnectionStep sin tNow due stats connections newBatch scene cs).2.2.active ∧
        i ∉ idsOf (renderConnectionStep sin tNow due stats connections newBatch scene cs).2.2.fadingIn) := by
  have main : ∀ (scene2 : List Nat) (cs2 : ConnectionStates) (NF NA : List Conn) (n : Nat),
      (∀ x ∈ NF ++ NA, x.id ∉ allIds cs) → (idsOf (NF ++ NA)).Nodup →
      cs2 = ⟨cs.active.drop n ++ NA, cs.fadingIn ++ NF,
        cs.fadingOut ++ (cs.active.take n).map (demoteConn tNow), cs.pendingRemoval⟩ →
      (allIds (updateConnections sin tNow scene2 cs2).2).Nodup ∧
      ∀ i ∈ allIds cs,
        bucketRank cs i ≤ bucketRank (updateConnections sin tNow scene2 cs2).2 i ∧
        bucketRank (updateConnections sin tNow scene2 cs2).2 i ≤ bucketRank cs i + 1 ∧
        (i ∈ idsOf cs.fadingOut →
          i ∉ idsOf (updateConnections sin tNow scene2 cs2).2.active ∧
          i ∉ idsOf (updateConnections sin tNow scene2 cs2).2.fadingIn) := by
    intro scene2 cs2 NF NA n hnew hnd hcs2
    exact renderStep_core sin tNow scene2 cs.fadingIn cs.active cs.fadingOut
      cs.pendingRemoval NF NA n cs2 hwf hnew hnd hcs2
  obtain ⟨n, hbal, hnle, -⟩ := balance_eq_demote tNow stats cs
  cases due with
  | false =>
      exact main scene cs [] [] 0 (by simp) (by simp [idsOf]) (by cases cs; simp)
  | true =>
      cases newBatch with
      | none =>
          simp only [renderConnectionStep, if_pos]
          rw [hbal]
          exact main scene (demote tNow n cs) [] [] n (by simp) (by simp [idsOf])
            (by cases cs; simp [demote])
      | some nb =>
          have hnbfresh := hfresh nb rfl
          cases connections with
          | none =>
              simp only [renderConnectionStep, insertPartialBatch, if_pos]
              rw [hbal]
              refine main (scene ++ [nb.id])
                { demote tNow n cs with active := (demote tNow n cs).active ++ [nb] }
                [] [nb] n ?_ (by simp [idsOf]) (by cases cs; simp [demote])
              intro x hx
              simp only [List.nil_append, List.mem_singleton] at hx
              subst hx
              exact hnbfresh
          | some c0 =>
              simp only [renderConnectionStep, insertPartialBatch, if_pos]
              rw [hbal]
              refine main (scene ++ [nb.id])
                { demote tNow n cs with fadingIn := (demote tNow n cs).fadingIn ++ [nb] }
                [nb] [] n ?_ (by simp [idsOf]) (by cases cs; simp [demote])
              intro x hx
              simp only [List.append_nil, List.mem_singleton] at hx
              subst hx
              exact hnbfresh

/-- C5 witness: one due tick on a state holding one batch per bucket
(distinct ids 1 to 4) satisfies the monotone-step theorem. -/
theorem lifecycle_buckets_monotone_step_witness :
    (allIds (renderConnectionStep (fun _ => 0) 100 true statsC5
      (some connA) none [] csC5).2.2).Nodup ∧
    ∀ i ∈ allIds csC5,
      bucketRank csC5 i ≤
        bucketRank (renderConnectionStep (fun _ => 0) 100 true statsC5
          (some connA) none [] csC5).2.2 i ∧
      bucketRank (renderConnectionStep (fun _ => 0) 100 true statsC5
          (some connA) none [] csC5).2.2 i ≤
        bucketRank csC5 i + 1 ∧
      (i ∈ idsOf csC5.fadingOut →
        i ∉ idsOf (renderConnectionStep (fun _ => 0) 100 true statsC5
          (some connA) none [] csC5).2.2.active ∧
        i ∉ idsOf (renderConnectionStep (fun _ => 0) 100 true statsC5
          (some connA) none [] csC5).2.2.fadingIn) :=
  lifecycle_buckets_monotone_step (fun _ => 0) 100 true statsC5 (some connA) none [] csC5
    (by decide) (fun nb h => nomatch h)
